import Mathlib

/-!
Shallow embedding of the PixelBattle contract
(src/contracts/contracts/PixelBattle.sol) and proofs about its
specification.

Modelling conventions:
- `uint256` / `uint8` values are `Nat`.  All quantities handled by the
  contract (prices, wei amounts, counters bounded by the 32x32 grid) stay
  astronomically far below 2^256 in reachable states, so 256-bit wrap-around
  is never observable and is not modelled; the one place where checked
  arithmetic can fire on paper (the `pixelCounts[previousOwner]--` underflow)
  is modelled explicitly as an `arithmeticUnderflow` error.
- An `address` is a `Nat`; `0` plays the role of `address(0)` (no owner).
  `msg.sender` of an external call is never the zero address.
- External calls that move ether are modelled by a transfer oracle
  `tOk : Nat -> Nat -> Bool` telling whether `payable(to).call{value: amt}`
  succeeds.
- A reverting Solidity transaction leaves the storage exactly as it was.
  Functions therefore return `Except e GameState`; the `...Tx` wrappers make
  the revert semantics explicit by returning the pre-state on error.
  Because a revert discards every in-flight storage write, embedding
  `purchasePixel` as "validate, then build the new state in one step" is
  observationally equal to the source's interleaved storage writes.
-/

set_option maxRecDepth 100000
set_option maxHeartbeats 2000000

namespace PixelBattle

/-- Canvas width constant from the contract (`CANVAS_WIDTH = 32`). -/
def CANVAS_WIDTH : Nat := 32

/-- Canvas height constant from the contract (`CANVAS_HEIGHT = 32`). -/
def CANVAS_HEIGHT : Nat := 32

/-- `INITIAL_PRICE = 0.0001 ether`, i.e. 10^14 wei. -/
def INITIAL_PRICE : Nat := 100000000000000

/-- `PRICE_INCREASE_FACTOR = 110`. -/
def PRICE_INCREASE_FACTOR : Nat := 110

/-- `PRICE_INCREASE_DIVISOR = 100`. -/
def PRICE_INCREASE_DIVISOR : Nat := 100

/-- `PREVIOUS_OWNER_PERCENTAGE = 84`. -/
def PREVIOUS_OWNER_PERCENTAGE : Nat := 84

/-- `PRIZE_BANK_PERCENTAGE = 15`. -/
def PRIZE_BANK_PERCENTAGE : Nat := 15

/-- `DEVELOPER_PERCENTAGE = 1`. -/
def DEVELOPER_PERCENTAGE : Nat := 1

/-- The `Pixel` struct of the contract. -/
structure Pixel where
  owner : Nat
  price : Nat
  color : String
  lastUpdateTime : Nat
deriving Repr, DecidableEq

/-- Contract storage: game state, the pixel mapping and the ownership
counters.  `pixels` and `pixelCounts` are total maps, mirroring Solidity
mappings (zero-initialised). -/
structure GameState where
  gameStartTime : Nat
  lastActivityTime : Nat
  inactivityPeriod : Nat
  prizeBankBalance : Nat
  gameActive : Bool
  developerWallet : Nat
  pixels : Nat → Nat → Pixel
  pixelCounts : Nat → Nat

/-- Errors of `purchasePixel` (the contract reverts with a message; the
constructor names follow the spec's error taxonomy).  `arithmeticUnderflow`
is the Solidity 0.8 checked-arithmetic panic on `pixelCounts[prev]--`. -/
inductive PurchaseError where
  | gameNotActive
  | outOfBounds
  | emptyColor
  | insufficientPayment
  | alreadyOwner
  | arithmeticUnderflow
  | transferFailed
deriving Repr, DecidableEq

/-- Errors of `startGame`. -/
inductive StartError where
  | alreadyActive
deriving Repr, DecidableEq

/-- Errors of `endGame` / `checkAndEndGame` / `getPixel`. -/
inductive EndError where
  | gameNotActive
  | cannotEndYet
  | transferFailed
deriving Repr, DecidableEq

/-- Error of `getPixel`. -/
inductive GetError where
  | outOfBounds
deriving Repr, DecidableEq

/-- The lazy-reset rule applied at the top of `purchasePixel` (lines
100-107): a pixel whose `lastUpdateTime` predates the current game cycle is
treated as fresh (no owner, `INITIAL_PRICE`, white, stamped with
`gameStartTime`). -/
def lazyResolve (s : GameState) (x y : Nat) : Pixel :=
  let pixel := s.pixels x y
  if pixel.lastUpdateTime < s.gameStartTime then
    { owner := 0, price := INITIAL_PRICE, color := "#FFFFFF",
      lastUpdateTime := s.gameStartTime }
  else
    pixel

/-- The four components of the revenue split of `_distributePayment`
(lines 145-180): previous-owner share, prize-bank share (with the
unclaimed owner share folded in when there is no previous owner),
developer share, and the rounding remainder that is also credited to the
prize bank. -/
structure SplitResult where
  previousOwnerShare : Nat
  prizeBankShare : Nat
  developerShare : Nat
  carry : Nat
deriving Repr, DecidableEq

/-- The pure share computation of `_distributePayment`:
`prizeBankShare = amount*15/100`, `developerShare = amount*1/100`;
with a previous owner additionally `previousOwnerShare = amount*84/100`,
otherwise the 84% goes to the prize bank; the remainder
`amount - totalDistributed` (lines 174-179) is credited to the prize bank
as well. -/
def paymentSplit (amount : Nat) (hasPreviousOwner : Bool) : SplitResult :=
  let prizeBankShare0 := amount * PRIZE_BANK_PERCENTAGE / 100
  let developerShare := amount * DEVELOPER_PERCENTAGE / 100
  let previousOwnerShare :=
    if hasPreviousOwner then amount * PREVIOUS_OWNER_PERCENTAGE / 100 else 0
  let prizeBankShare :=
    if hasPreviousOwner then prizeBankShare0
    else prizeBankShare0 + amount * PREVIOUS_OWNER_PERCENTAGE / 100
  let totalDistributed := previousOwnerShare + prizeBankShare + developerShare
  let carry := if totalDistributed < amount then amount - totalDistributed else 0
  { previousOwnerShare := previousOwnerShare,
    prizeBankShare := prizeBankShare,
    developerShare := developerShare,
    carry := carry }

/-- `_distributePayment` (lines 145-180): attempts the two ether
transfers (previous owner first, then developer — the source order of the
two `require(success)` reverts) and returns the new `prizeBankBalance`
(old balance plus prize-bank share plus rounding remainder). -/
def _distributePayment (tOk : Nat → Nat → Bool) (developerWallet prizeBank previousOwner amount : Nat) :
    Except PurchaseError Nat :=
  let r := paymentSplit amount (previousOwner ≠ 0)
  if previousOwner ≠ 0 ∧ 0 < r.previousOwnerShare ∧ tOk previousOwner r.previousOwnerShare = false then
    .error .transferFailed
  else if 0 < r.developerShare ∧ tOk developerWallet r.developerShare = false then
    .error .transferFailed
  else
    .ok (prizeBank + r.prizeBankShare + r.carry)

/-- The storage mutation of a successful `purchasePixel` (lines 117-135):
decrement the previous owner's counter (if any), increment the buyer's,
write the new pixel (owner, escalated price, color, timestamp), store the
new prize-bank balance and refresh the activity clock. -/
def applyPurchase (s : GameState) (sender x y : Nat) (color : String) (now newPrizeBank : Nat) :
    GameState :=
  let pixel := lazyResolve s x y
  let previousOwner := pixel.owner
  let counts1 :=
    if previousOwner ≠ 0 then
      Function.update s.pixelCounts previousOwner (s.pixelCounts previousOwner - 1)
    else
      s.pixelCounts
  let counts2 := Function.update counts1 sender (counts1 sender + 1)
  let newPixel : Pixel :=
    { owner := sender,
      price := pixel.price * PRICE_INCREASE_FACTOR / PRICE_INCREASE_DIVISOR,
      color := color,
      lastUpdateTime := now }
  { s with
    pixels := fun a b => if a = x ∧ b = y then newPixel else s.pixels a b,
    pixelCounts := counts2,
    prizeBankBalance := newPrizeBank,
    lastActivityTime := now }

/-- `purchasePixel` (lines 92-138): validation in source order
(game active, x bound, y bound, non-empty color, lazily-resolved price
paid, not already the owner), the checked decrement, then payment
distribution; on success the state mutation of `applyPurchase`. -/
def purchasePixel (tOk : Nat → Nat → Bool) (s : GameState) (sender msgValue x y : Nat)
    (color : String) (now : Nat) : Except PurchaseError GameState :=
  if s.gameActive = false then .error .gameNotActive
  else if CANVAS_WIDTH ≤ x then .error .outOfBounds
  else if CANVAS_HEIGHT ≤ y then .error .outOfBounds
  else if color.length = 0 then .error .emptyColor
  else if msgValue < (lazyResolve s x y).price then .error .insufficientPayment
  else if (lazyResolve s x y).owner = sender then .error .alreadyOwner
  else if (lazyResolve s x y).owner ≠ 0 ∧ s.pixelCounts (lazyResolve s x y).owner = 0 then
    .error .arithmeticUnderflow
  else
    match _distributePayment tOk s.developerWallet s.prizeBankBalance (lazyResolve s x y).owner msgValue with
    | .error e => .error e
    | .ok npb => .ok (applyPurchase s sender x y color now npb)

/-- Transaction-level view of `purchasePixel`: a revert leaves the
storage untouched, so the pre-state is returned together with the error. -/
def purchaseTx (tOk : Nat → Nat → Bool) (s : GameState) (sender msgValue x y : Nat)
    (color : String) (now : Nat) : GameState × Except PurchaseError Unit :=
  match purchasePixel tOk s sender msgValue x y color now with
  | .ok s1 => (s1, .ok ())
  | .error e => (s, .error e)

/-- `startGame` (lines 76-84).  The `onlyOwner` access modifier is an
authentication concern outside the claims and is not modelled. -/
def startGame (s : GameState) (now : Nat) : Except StartError GameState :=
  if s.gameActive then .error .alreadyActive
  else .ok { s with gameActive := true, gameStartTime := now, lastActivityTime := now }

/-- `shouldEndGame` (lines 186-188). -/
def shouldEndGame (s : GameState) (now : Nat) : Bool :=
  s.gameActive && decide (s.inactivityPeriod ≤ now - s.lastActivityTime)

/-- The freshly deployed contract: every storage slot zero-initialised,
`inactivityPeriod = 24 hours`, the developer wallet set by the
constructor. -/
def initialState (developerWallet : Nat) : GameState :=
  { gameStartTime := 0,
    lastActivityTime := 0,
    inactivityPeriod := 86400,
    prizeBankBalance := 0,
    gameActive := false,
    developerWallet := developerWallet,
    pixels := fun _ _ => { owner := 0, price := 0, color := "", lastUpdateTime := 0 },
    pixelCounts := fun _ => 0 }

/-- The grid traversal order used by every full-canvas loop of the
contract: `x` outer from 0 to 31, `y` inner from 0 to 31. -/
def cellList : List (Nat × Nat) :=
  (List.range (CANVAS_WIDTH * CANVAS_HEIGHT)).map (fun i => (i / CANVAS_HEIGHT, i % CANVAS_HEIGHT))

/-- The stored (physical) owner of every cell, in grid traversal order. -/
def ownerScan (s : GameState) : List Nat :=
  cellList.map (fun xy => (s.pixels xy.1 xy.2).owner)

/-- Number of cells whose stored owner is not `address(0)` — the
`totalPixels` computed by the loops at lines 270-278 and 338-350. -/
def ownedCellCount (s : GameState) : Nat :=
  (ownerScan s).countP (fun o => o != 0)

/-- Number of cells whose stored owner is the given actor. -/
def countOwned (s : GameState) (a : Nat) : Nat :=
  (ownerScan s).countP (fun o => o == a)

/-- Sum of the ownership counters over a given list of actors. -/
def sumCounts (s : GameState) (actors : List Nat) : Nat :=
  (actors.map s.pixelCounts).sum

/-- First-match lookup in the `(owner, amount)` accumulation array of
`_distributePrizes`; `0` when the owner has no entry. -/
def getAmt : List (Nat × Nat) → Nat → Nat
  | [], _ => 0
  | p :: rest, o => if p.1 = o then p.2 else getAmt rest o

/-- The `found` scan of `_distributePrizes` (lines 371-377): is the owner
already in the accumulation array? -/
def hasKey : List (Nat × Nat) → Nat → Bool
  | [], _ => false
  | p :: rest, o => if p.1 = o then true else hasKey rest o

/-- Add `ps` to the first (hence, by construction, unique) entry of the
given owner — `prizeAmounts[ownerIndex] += prizeShare` (line 381). -/
def updAmt (ps : Nat) : List (Nat × Nat) → Nat → List (Nat × Nat)
  | [], _ => []
  | p :: rest, o => if p.1 = o then (p.1, p.2 + ps) :: rest else p :: updAmt ps rest o

/-- One step of the first pass of `_distributePrizes` (lines 359-393):
for an owned cell (and a positive per-cell share) credit `ps` to the
cell's owner, appending a new entry the first time the owner is seen. -/
def accumStep (ps : Nat) (acc : List (Nat × Nat)) (o : Nat) : List (Nat × Nat) :=
  if o ≠ 0 ∧ 0 < ps then
    if hasKey acc o then updAmt ps acc o else acc ++ [(o, ps)]
  else acc

/-- The full first pass of `_distributePrizes`: the `(owner, amount)`
accumulation array after scanning the whole grid. -/
def accumPrizes (s : GameState) (ps : Nat) : List (Nat × Nat) :=
  (ownerScan s).foldl (accumStep ps) []

/-- The unique-owner collection loop of `_findWinners` (lines 280-312):
every distinct nonzero stored owner, in first-occurrence order. -/
def ownersList (s : GameState) : List Nat :=
  (ownerScan s).foldl (fun acc o => if o ≠ 0 ∧ ¬ o ∈ acc then acc ++ [o] else acc) []

/-- `_findWinners` (lines 265-327): all collected players whose
`pixelCounts` equals the maximal `pixelCounts` among collected players. -/
def _findWinners (s : GameState) : List Nat :=
  let players := ownersList s
  let maxPixelCount := players.foldl (fun m p => max m (s.pixelCounts p)) 0
  players.filter (fun p => s.pixelCounts p = maxPixelCount)

/-- `_distributePrizes` (lines 333-414).  Returns the state with the
post-distribution `prizeBankBalance` (remainder kept, lines 408-413)
together with the list of `PrizeDistributed` events (one per recipient
with a positive amount).  A single failed recipient transfer reverts the
whole transaction (`require(success, "Prize distribution failed")`,
line 402), which the caller surfaces as an error. -/
def _distributePrizes (tOk : Nat → Nat → Bool) (s : GameState) (winners : List Nat) :
    Except EndError (GameState × List (Nat × Nat)) :=
  if winners.length = 0 ∨ s.prizeBankBalance = 0 then .ok (s, [])
  else
    let totalPixels := ownedCellCount s
    if totalPixels = 0 then .ok (s, [])
    else
      let prizeShare := s.prizeBankBalance * 1 / totalPixels
      let payouts := accumPrizes s prizeShare
      let totalDistributed := (payouts.map (fun p => p.2)).sum
      if payouts.all (fun p => p.2 == 0 || tOk p.1 p.2) then
        .ok ({ s with prizeBankBalance :=
                 if totalDistributed < s.prizeBankBalance then
                   s.prizeBankBalance - totalDistributed
                 else 0 },
             payouts.filter (fun p => 0 < p.2))
      else .error .transferFailed

/-- The tail of both cycle-end entry points: `prizeBankBalance = 0`
(lines 208, 232) followed by `_startNewGameCycle` (lines 419-429:
`gameActive := true`, `gameStartTime := lastActivityTime := block.timestamp`). -/
def restartCycle (s : GameState) (now : Nat) : GameState :=
  { s with
    prizeBankBalance := 0,
    gameActive := true,
    gameStartTime := now,
    lastActivityTime := now }

/-- `endGame` (lines 193-212): requires an active game past its
inactivity window, deactivates, finds winners, distributes prizes,
zeroes the prize bank and opens the next cycle
(`_startNewGameCycle`, lines 419-429: `gameActive := true`,
`gameStartTime := lastActivityTime := block.timestamp`). -/
def endGame (tOk : Nat → Nat → Bool) (s : GameState) (now : Nat) :
    Except EndError (GameState × List (Nat × Nat)) :=
  if s.gameActive = false then .error .gameNotActive
  else if shouldEndGame s now = false then .error .cannotEndYet
  else
    match _distributePrizes tOk { s with gameActive := false }
        (_findWinners { s with gameActive := false }) with
    | .error e => .error e
    | .ok (s2, evs) =>
        .ok (restartCycle s2 now, evs)

/-- `checkAndEndGame` (lines 218-241): the guarded external trigger —
a no-op returning `false` unless `shouldEndGame`, otherwise the same
cycle-end sequence as `endGame`, returning `true`. -/
def checkAndEndGame (tOk : Nat → Nat → Bool) (s : GameState) (now : Nat) :
    Except EndError (Bool × GameState × List (Nat × Nat)) :=
  if shouldEndGame s now then
    match _distributePrizes tOk { s with gameActive := false }
        (_findWinners { s with gameActive := false }) with
    | .error e => .error e
    | .ok (s2, evs) =>
        .ok (true, restartCycle s2 now, evs)
  else .ok (false, s, [])

/-- Transaction-level view of `checkAndEndGame`: on revert the pre-state
is kept; on success the new state and the returned boolean. -/
def checkAndEndGameTx (tOk : Nat → Nat → Bool) (s : GameState) (now : Nat) :
    GameState × Except EndError Bool :=
  match checkAndEndGame tOk s now with
  | .ok (b, s1, _) => (s1, .ok b)
  | .error e => (s, .error e)

/-- `getPixel` (lines 440-456): bounds check, then the raw stored pixel,
except that a stored price of `0` is reported as `INITIAL_PRICE`.  No
lazy-reset resolution happens here. -/
def getPixel (s : GameState) (x y : Nat) :
    Except GetError (Nat × Nat × String × Nat) :=
  if x < CANVAS_WIDTH ∧ y < CANVAS_HEIGHT then
    let pixel := s.pixels x y
    .ok (pixel.owner,
         (if 0 < pixel.price then pixel.price else INITIAL_PRICE),
         pixel.color,
         pixel.lastUpdateTime)
  else .error .outOfBounds

/-- Executable form of the per-cycle price invariant: every cell that has
been written in the current cycle carries a price of at least
`INITIAL_PRICE` (cells from older cycles are lazily reset before use). -/
def priceInvB (s : GameState) : Bool :=
  cellList.all (fun xy =>
    decide ((s.pixels xy.1 xy.2).lastUpdateTime < s.gameStartTime) ||
    decide (INITIAL_PRICE ≤ (s.pixels xy.1 xy.2).price))

/-- Extract the success value of an `Except`, with a fallback default. -/
def okOr {ε α : Type} (d : α) : Except ε α → α
  | .ok a => a
  | .error _ => d

/-- Did the computation succeed? -/
def isOkE {ε α : Type} : Except ε α → Bool
  | .ok _ => true
  | .error _ => false

/-! Concrete transfer oracles and states used to evaluate the theorems on
closed inputs.  `trace...` is a reachable two-cycle history: deploy, start
at time 10, actor 100 buys cell (0,0) at time 20, the cycle ends at time
86420 after 24 hours of inactivity, and actor 200 buys the same cell in
the new cycle at time 86500. -/

/-- Oracle under which every ether transfer succeeds. -/
def tOkAll : Nat → Nat → Bool := fun _ _ => true

/-- Oracle under which every ether transfer fails. -/
def tOkNone : Nat → Nat → Bool := fun _ _ => false

/-- Oracle under which only transfers to actor 100 fail. -/
def tOkNot100 : Nat → Nat → Bool := fun dst _ => dst != 100

/-- Fallback state for `okOr`. -/
def dummy : GameState := initialState 0

/-- Freshly deployed contract with developer wallet 9. -/
def traceS0 : GameState := initialState 9

/-- After `startGame` at time 10. -/
def traceS1 : GameState := okOr traceS0 (startGame traceS0 10)

/-- After actor 100 buys cell (0,0) for `INITIAL_PRICE` at time 20. -/
def traceS2 : GameState :=
  okOr traceS0 (purchasePixel tOkAll traceS1 100 INITIAL_PRICE 0 0 "#FF0000" 20)

/-- The cycle end at time 86420 (24 hours after the last activity). -/
def traceEnd : GameState × List (Nat × Nat) :=
  okOr (traceS0, []) (endGame tOkAll traceS2 86420)

/-- The state at the start of the second cycle. -/
def traceS3 : GameState := traceEnd.1

/-- After actor 200 buys the lazily-reset cell (0,0) in the second cycle
at time 86500. -/
def traceS4 : GameState :=
  okOr traceS0 (purchasePixel tOkAll traceS3 200 INITIAL_PRICE 0 0 "#00FF00" 86500)

/-- A mid-cycle state with two owners: actor 100 holds cells (0,0), (0,1)
and (0,2), actor 200 holds cell (0,3), the prize bank holds 10 wei and
the inactivity window is 5 seconds. -/
def demoTwoOwners : GameState :=
  { gameStartTime := 1,
    lastActivityTime := 1,
    inactivityPeriod := 5,
    prizeBankBalance := 10,
    gameActive := true,
    developerWallet := 9,
    pixels := fun a b =>
      if a = 0 ∧ b < 3 then
        { owner := 100, price := INITIAL_PRICE, color := "#111111", lastUpdateTime := 2 }
      else if a = 0 ∧ b = 3 then
        { owner := 200, price := INITIAL_PRICE, color := "#222222", lastUpdateTime := 2 }
      else
        { owner := 0, price := 0, color := "", lastUpdateTime := 0 },
    pixelCounts := fun a => if a = 100 then 3 else if a = 200 then 1 else 0 }

/-- The two-owner state with a 1-wei prize pool: the per-cell share
`floor(1/4)` truncates to 0. -/
def demoZeroShare : GameState :=
  { demoTwoOwners with prizeBankBalance := 1 }

/-- C5: for every amount and both values of `has_previous_owner`, the four
components of the payment split — previous-owner share, prize-bank share
together with the rounding carry, and operator (developer) share — sum
exactly to the amount: no wei is lost or double-counted. -/
theorem c5_split_exact (amount : Nat) (hasPreviousOwner : Bool) :
    (paymentSplit amount hasPreviousOwner).previousOwnerShare +
      ((paymentSplit amount hasPreviousOwner).prizeBankShare +
        (paymentSplit amount hasPreviousOwner).carry) +
      (paymentSplit amount hasPreviousOwner).developerShare = amount := by
  unfold paymentSplit PREVIOUS_OWNER_PERCENTAGE PRIZE_BANK_PERCENTAGE DEVELOPER_PERCENTAGE
  cases hasPreviousOwner <;>
    simp only [if_true, if_false, Bool.false_eq_true, Bool.true_eq_false,
      ite_true, ite_false] <;>
    split <;> omega

/-- C10: for every in-bounds coordinate, `getPixel` returns the stored
owner, color and timestamp unchanged, reporting the stored price except
that a stored price of 0 (never-purchased cell) is reported as
`INITIAL_PRICE`; it does not apply the lazy-reset rule — its result is
independent of `gameStartTime`, so for a cell last written in an earlier
cycle it returns that earlier cycle's owner, price and color. -/
theorem c10_getPixel_raw (s : GameState) (x y : Nat)
    (hx : x < CANVAS_WIDTH) (hy : y < CANVAS_HEIGHT) :
    getPixel s x y = .ok ((s.pixels x y).owner,
      (if 0 < (s.pixels x y).price then (s.pixels x y).price else INITIAL_PRICE),
      (s.pixels x y).color,
      (s.pixels x y).lastUpdateTime) ∧
    (∀ t, getPixel { s with gameStartTime := t } x y = getPixel s x y) := by
  constructor
  · simp [getPixel, hx, hy]
  · intro t
    simp [getPixel]

/-- C10 witness: in `traceS3` cell (0,0) was last written in the previous
cycle (stale), yet `getPixel` still reports owner 100 from that cycle,
and its result does not depend on `gameStartTime`. -/
theorem c10_getPixel_raw_witness :
    getPixel traceS3 0 0 = .ok ((traceS3.pixels 0 0).owner,
      (if 0 < (traceS3.pixels 0 0).price then (traceS3.pixels 0 0).price else INITIAL_PRICE),
      (traceS3.pixels 0 0).color,
      (traceS3.pixels 0 0).lastUpdateTime) ∧
    getPixel { traceS3 with gameStartTime := 97 } 0 0 = getPixel traceS3 0 0 ∧
    (traceS3.pixels 0 0).owner = 100 ∧
    (traceS3.pixels 0 0).lastUpdateTime < traceS3.gameStartTime :=
  ⟨(c10_getPixel_raw traceS3 0 0 (by decide) (by decide)).1,
   (c10_getPixel_raw traceS3 0 0 (by decide) (by decide)).2 97,
   by decide, by decide⟩

/-- C9: whenever a cycle end completes (a successful `endGame`, or a
`checkAndEndGame` that returns `true`), the stored prize-bank balance of
the resulting state is exactly 0: the truncation remainder of the
proportional distribution is discarded rather than carried into the next
cycle. -/
theorem c9_pool_zero_after_end :
    (∀ (tOk : Nat → Nat → Bool) (s : GameState) (now : Nat)
        (r : GameState × List (Nat × Nat)),
        endGame tOk s now = .ok r → r.1.prizeBankBalance = 0) ∧
    (∀ (tOk : Nat → Nat → Bool) (s : GameState) (now : Nat)
        (s1 : GameState) (evs : List (Nat × Nat)),
        checkAndEndGame tOk s now = .ok (true, s1, evs) →
        s1.prizeBankBalance = 0) := by
  constructor
  · intro tOk s now r h
    unfold endGame at h
    split at h
    · exact Except.noConfusion h
    · split at h
      · exact Except.noConfusion h
      · split at h
        · exact Except.noConfusion h
        · injection h with h
          rw [← h]
          rfl
  · intro tOk s now s1 evs h
    unfold checkAndEndGame at h
    split at h
    · split at h
      · exact Except.noConfusion h
      · injection h with h
        injection h with h1 h2
        injection h2 with h2 h3
        rw [← h2]
        rfl
    · injection h with h
      injection h with h1 h2
      exact Bool.noConfusion h1

/-- C9 witness: the concrete cycle end of the trace leaves a zero prize
bank. -/
theorem c9_pool_zero_after_end_witness :
    (okOr (traceS0, []) (endGame tOkAll traceS2 86420)).1.prizeBankBalance = 0 :=
  c9_pool_zero_after_end.1 tOkAll traceS2 86420
    (okOr (traceS0, []) (endGame tOkAll traceS2 86420)) rfl

/-- If every accumulated payout with a positive amount has a succeeding
transfer, `_distributePrizes` succeeds and touches nothing but the
prize-bank balance. -/
theorem distributePrizes_ok (tOk : Nat → Nat → Bool) (s : GameState) (winners : List Nat)
    (hall : ∀ p, p ∈ accumPrizes s (s.prizeBankBalance * 1 / ownedCellCount s) →
      p.2 = 0 ∨ tOk p.1 p.2 = true) :
    ∃ s2 evs, _distributePrizes tOk s winners = .ok (s2, evs) ∧
      s2.pixels = s.pixels ∧ s2.pixelCounts = s.pixelCounts ∧
      s2.gameActive = s.gameActive ∧ s2.gameStartTime = s.gameStartTime ∧
      s2.lastActivityTime = s.lastActivityTime ∧
      s2.inactivityPeriod = s.inactivityPeriod := by
  unfold _distributePrizes
  split
  · exact ⟨s, [], rfl, rfl, rfl, rfl, rfl, rfl, rfl⟩
  · dsimp only
    split
    · exact ⟨s, [], rfl, rfl, rfl, rfl, rfl, rfl, rfl⟩
    · have hA : (accumPrizes s (s.prizeBankBalance * 1 / ownedCellCount s)).all
          (fun p => p.2 == 0 || tOk p.1 p.2) = true := by
        rw [List.all_eq_true]
        intro p hp
        rcases hall p hp with h | h
        · simp [h]
        · simp [h]
      rw [if_pos hA]
      exact ⟨_, _, rfl, rfl, rfl, rfl, rfl, rfl, rfl⟩

/-- C7: the externally callable cycle-end trigger is a no-op returning
`false` (state unchanged) when `shouldEndGame` is false; when
`shouldEndGame` is true (and the prize transfers go through) it ends the
cycle — pixels and counters untouched, prize pool zeroed — and opens a
new active cycle with `gameStartTime = lastActivityTime = now`,
returning `true`. -/
theorem c7_checkAndEndGame_trigger (tOk : Nat → Nat → Bool) (s : GameState) (now : Nat) :
    (shouldEndGame s now = false → checkAndEndGameTx tOk s now = (s, .ok false)) ∧
    (shouldEndGame s now = true →
      (∀ p, p ∈ accumPrizes s (s.prizeBankBalance * 1 / ownedCellCount s) →
        p.2 = 0 ∨ tOk p.1 p.2 = true) →
      (checkAndEndGameTx tOk s now).2 = .ok true ∧
      (checkAndEndGameTx tOk s now).1.gameActive = true ∧
      (checkAndEndGameTx tOk s now).1.gameStartTime = now ∧
      (checkAndEndGameTx tOk s now).1.lastActivityTime = now ∧
      (checkAndEndGameTx tOk s now).1.prizeBankBalance = 0 ∧
      (checkAndEndGameTx tOk s now).1.pixels = s.pixels ∧
      (checkAndEndGameTx tOk s now).1.pixelCounts = s.pixelCounts) := by
  constructor
  · intro h
    unfold checkAndEndGameTx checkAndEndGame
    rw [h]
    rfl
  · intro h hall
    obtain ⟨s2, evs, hd, hpix, hcnt, -, -, -, -⟩ :=
      distributePrizes_ok tOk { s with gameActive := false }
        (_findWinners { s with gameActive := false }) hall
    have key : checkAndEndGameTx tOk s now = (restartCycle s2 now, .ok true) := by
      unfold checkAndEndGameTx checkAndEndGame
      rw [h, if_pos rfl, hd]
    rw [key]
    exact ⟨rfl, rfl, rfl, rfl, rfl, hpix, hcnt⟩

/-- C7 witness: on `demoTwoOwners` the trigger is a no-op at time 2 and
completes the cycle transition at time 10. -/
theorem c7_checkAndEndGame_trigger_witness :
    checkAndEndGameTx tOkAll demoTwoOwners 2 = (demoTwoOwners, .ok false) ∧
    ((checkAndEndGameTx tOkAll demoTwoOwners 10).2 = .ok true ∧
     (checkAndEndGameTx tOkAll demoTwoOwners 10).1.gameActive = true ∧
     (checkAndEndGameTx tOkAll demoTwoOwners 10).1.gameStartTime = 10 ∧
     (checkAndEndGameTx tOkAll demoTwoOwners 10).1.lastActivityTime = 10 ∧
     (checkAndEndGameTx tOkAll demoTwoOwners 10).1.prizeBankBalance = 0 ∧
     (checkAndEndGameTx tOkAll demoTwoOwners 10).1.pixels = demoTwoOwners.pixels ∧
     (checkAndEndGameTx tOkAll demoTwoOwners 10).1.pixelCounts = demoTwoOwners.pixelCounts) :=
  ⟨(c7_checkAndEndGame_trigger tOkAll demoTwoOwners 2).1 rfl,
   (c7_checkAndEndGame_trigger tOkAll demoTwoOwners 10).2 rfl (fun _ _ => Or.inr rfl)⟩

/-- Crediting an amount does not change the key set of the accumulation
array. -/
theorem hasKey_updAmt (ps : Nat) (acc : List (Nat × Nat)) (o k : Nat) :
    hasKey (updAmt ps acc o) k = hasKey acc k := by
  induction acc with
  | nil => rfl
  | cons p rest ih =>
    by_cases hp : p.1 = o
    · simp only [updAmt, if_pos hp, hasKey]
    · simp only [updAmt, if_neg hp, hasKey]
      by_cases hk : p.1 = k
      · simp [hk]
      · simp only [if_neg hk]
        exact ih

/-- Key lookup across an appended singleton entry. -/
theorem hasKey_append_single (acc : List (Nat × Nat)) (w amt k : Nat) :
    hasKey (acc ++ [(w, amt)]) k = (hasKey acc k || decide (w = k)) := by
  induction acc with
  | nil =>
    by_cases hw : w = k <;> simp [hasKey, hw]
  | cons p rest ih =>
    by_cases hp : p.1 = k
    · simp [hasKey, hp]
    · simp only [List.cons_append, hasKey, if_neg hp]
      exact ih

/-- Any key present after one accumulation step was present before, or
is the nonzero owner just scanned (with a positive per-cell share). -/
theorem step_hasKey (ps : Nat) (acc : List (Nat × Nat)) (o k : Nat)
    (h : hasKey (accumStep ps acc o) k = true) :
    hasKey acc k = true ∨ (k = o ∧ o ≠ 0 ∧ 0 < ps) := by
  unfold accumStep at h
  by_cases hg : o ≠ 0 ∧ 0 < ps
  · rw [if_pos hg] at h
    by_cases hk : hasKey acc o = true
    · rw [if_pos hk, hasKey_updAmt] at h
      exact Or.inl h
    · rw [if_neg hk, hasKey_append_single, Bool.or_eq_true] at h
      rcases h with h | h
      · exact Or.inl h
      · exact Or.inr ⟨(of_decide_eq_true h).symm, hg⟩
  · rw [if_neg hg] at h
    exact Or.inl h

/-- Any key of the final accumulation array is a nonzero owner occurring
in the scan (with a positive per-cell share), unless it was already in
the initial accumulator. -/
theorem fold_hasKey (ps k : Nat) :
    ∀ (l : List Nat) (acc : List (Nat × Nat)),
      hasKey (l.foldl (accumStep ps) acc) k = true →
      hasKey acc k = true ∨ (k ∈ l ∧ k ≠ 0 ∧ 0 < ps) := by
  intro l
  induction l with
  | nil =>
    intro acc h
    exact Or.inl h
  | cons w l ih =>
    intro acc h
    rw [List.foldl_cons] at h
    rcases ih _ h with h1 | h1
    · rcases step_hasKey ps acc w k h1 with h2 | h2
      · exact Or.inl h2
      · refine Or.inr ⟨?_, ?_, h2.2.2⟩
        · rw [h2.1]
          exact List.mem_cons_self w l
        · rw [h2.1]
          exact h2.2.1
    · exact Or.inr ⟨List.mem_cons_of_mem _ h1.1, h1.2.1, h1.2.2⟩

/-- A listed entry's key is present. -/
theorem mem_hasKey (acc : List (Nat × Nat)) (p : Nat × Nat) (h : p ∈ acc) :
    hasKey acc p.1 = true := by
  induction acc with
  | nil => cases h
  | cons q rest ih =>
    rcases List.mem_cons.mp h with h1 | h1
    · subst h1
      simp [hasKey]
    · by_cases hq : q.1 = p.1 <;> simp [hasKey, hq, ih h1]

/-- The owner-collection fold never shrinks its accumulator. -/
theorem owners_foldl_length :
    ∀ (l : List Nat) (acc : List Nat),
      acc.length ≤
        (l.foldl (fun acc o => if o ≠ 0 ∧ ¬ o ∈ acc then acc ++ [o] else acc) acc).length := by
  intro l
  induction l with
  | nil =>
    intro acc
    exact Nat.le_refl _
  | cons w l ih =>
    intro acc
    rw [List.foldl_cons]
    refine Nat.le_trans ?_ (ih _)
    split
    · simp
    · exact Nat.le_refl _

/-- A nonzero owner in the scan makes the collected player list
nonempty. -/
theorem owners_foldl_ne_nil :
    ∀ (l : List Nat) (acc : List Nat) (k : Nat), k ∈ l → k ≠ 0 →
      (l.foldl (fun acc o => if o ≠ 0 ∧ ¬ o ∈ acc then acc ++ [o] else acc) acc) ≠ [] := by
  intro l
  induction l with
  | nil =>
    intro acc k hk
    cases hk
  | cons w l ih =>
    intro acc k hk hk0
    rw [List.foldl_cons]
    rcases List.mem_cons.mp hk with h | h
    · subst h
      have hne : (if k ≠ 0 ∧ ¬ k ∈ acc then acc ++ [k] else acc) ≠ [] := by
        split
        · simp
        next hcond =>
          have hmem : k ∈ acc := by
            by_contra hmem
            exact hcond ⟨hk0, hmem⟩
          exact List.ne_nil_of_mem hmem
      intro hres
      have hlen := owners_foldl_length l (if k ≠ 0 ∧ ¬ k ∈ acc then acc ++ [k] else acc)
      rw [hres] at hlen
      exact hne (List.length_eq_zero.mp (Nat.le_zero.mp hlen))
    · exact ih _ k h hk0

/-- The running maximum never drops below its initial value. -/
theorem foldl_max_init_le (f : Nat → Nat) :
    ∀ (l : List Nat) (a : Nat), a ≤ l.foldl (fun m p => max m (f p)) a := by
  intro l
  induction l with
  | nil =>
    intro a
    exact Nat.le_refl a
  | cons w l ih =>
    intro a
    rw [List.foldl_cons]
    exact Nat.le_trans (Nat.le_max_left a (f w)) (ih _)

/-- Every listed value is below the running maximum. -/
theorem le_foldl_max (f : Nat → Nat) :
    ∀ (l : List Nat) (a q : Nat), q ∈ l →
      f q ≤ l.foldl (fun m p => max m (f p)) a := by
  intro l
  induction l with
  | nil =>
    intro a q hq
    cases hq
  | cons w l ih =>
    intro a q hq
    rw [List.foldl_cons]
    rcases List.mem_cons.mp hq with h | h
    · subst h
      exact Nat.le_trans (Nat.le_max_right a (f q)) (foldl_max_init_le f l _)
    · exact ih _ q h

/-- The running maximum is its initial value or is attained in the
list. -/
theorem foldl_max_attained (f : Nat → Nat) :
    ∀ (l : List Nat) (a : Nat),
      l.foldl (fun m p => max m (f p)) a = a ∨
        ∃ q ∈ l, f q = l.foldl (fun m p => max m (f p)) a := by
  intro l
  induction l with
  | nil =>
    intro a
    exact Or.inl rfl
  | cons w l ih =>
    intro a
    rw [List.foldl_cons]
    rcases ih (max a (f w)) with h | h
    · rcases max_choice a (f w) with hm | hm
      · exact Or.inl (by rw [h, hm])
      · exact Or.inr ⟨w, List.mem_cons_self w l, by rw [h, hm]⟩
    · obtain ⟨q, hq, he⟩ := h
      exact Or.inr ⟨q, List.mem_cons_of_mem _ hq, he⟩

/-- With at least one collected player, `_findWinners` is nonempty: the
maximal counter value is attained (or zero, in which case any player
qualifies). -/
theorem findWinners_ne_nil (s : GameState) (h : ownersList s ≠ []) :
    _findWinners s ≠ [] := by
  unfold _findWinners
  dsimp only
  rcases foldl_max_attained s.pixelCounts (ownersList s) 0 with hm | hm
  · obtain ⟨q, hq⟩ := List.exists_mem_of_ne_nil (ownersList s) h
    have hle := le_foldl_max s.pixelCounts (ownersList s) 0 q hq
    rw [hm] at hle
    have hq0 : s.pixelCounts q = 0 := Nat.le_zero.mp hle
    intro hnil
    have hmem : q ∈ (ownersList s).filter
        (fun p => s.pixelCounts p =
          (ownersList s).foldl (fun m p => max m (s.pixelCounts p)) 0) :=
      List.mem_filter.mpr ⟨hq, by simp [hq0, hm]⟩
    rw [hnil] at hmem
    cases hmem
  · obtain ⟨q, hq, he⟩ := hm
    intro hnil
    have hmem : q ∈ (ownersList s).filter
        (fun p => s.pixelCounts p =
          (ownersList s).foldl (fun m p => max m (s.pixelCounts p)) 0) :=
      List.mem_filter.mpr ⟨hq, by simp [he]⟩
    rw [hnil] at hmem
    cases hmem

/-- If some accumulated payout has a positive amount and a failing
transfer, the whole `_distributePrizes` (called with its real winners)
reverts with the transfer failure. -/
theorem distributePrizes_error_of_failed_payout (tOk : Nat → Nat → Bool) (s : GameState)
    (p : Nat × Nat)
    (hp : p ∈ accumPrizes s (s.prizeBankBalance * 1 / ownedCellCount s))
    (hpos : 0 < p.2) (hto : tOk p.1 p.2 = false) :
    _distributePrizes tOk s (_findWinners s) = .error .transferFailed := by
  have hkey := mem_hasKey _ p hp
  rcases fold_hasKey (s.prizeBankBalance * 1 / ownedCellCount s) p.1 (ownerScan s) [] hkey
    with h | ⟨hmem, hne0, hps⟩
  · exact Bool.noConfusion h
  have hpool : s.prizeBankBalance ≠ 0 := by
    intro h0
    rw [h0] at hps
    simp at hps
  have hcells : ownedCellCount s ≠ 0 := by
    intro h0
    rw [h0] at hps
    simp at hps
  have hwin : _findWinners s ≠ [] :=
    findWinners_ne_nil s (owners_foldl_ne_nil (ownerScan s) [] p.1 hmem hne0)
  unfold _distributePrizes
  rw [if_neg ?g1]
  case g1 =>
    rintro (h | h)
    · exact hwin (List.length_eq_zero.mp h)
    · exact hpool h
  dsimp only
  rw [if_neg hcells, if_neg ?g3]
  case g3 =>
    intro hall
    have hat := List.all_eq_true.mp hall p hp
    rw [Bool.or_eq_true] at hat
    rcases hat with h | h
    · rw [beq_iff_eq] at h
      omega
    · rw [hto] at h
      exact Bool.noConfusion h

/-- C3 counterexample: in `demoTwoOwners` the cycle is ready to end at
time 10 and actor 200 is owed 2 wei with a perfectly working transfer,
yet because the transfer to actor 100 fails, the whole cycle end reverts:
actor 200 is not paid and the cycle transition does not happen — the
transfers are not independent, refuting the claim. -/
theorem c3_counterexample_dependent_transfers :
    shouldEndGame demoTwoOwners 10 = true ∧
    getAmt (accumPrizes demoTwoOwners
      (demoTwoOwners.prizeBankBalance * 1 / ownedCellCount demoTwoOwners)) 200 = 2 ∧
    tOkNot100 200 2 = true ∧
    checkAndEndGameTx tOkNot100 demoTwoOwners 10 = (demoTwoOwners, .error .transferFailed) :=
  ⟨rfl, by decide, rfl, rfl⟩

/-- C3 amended: prize-distribution transfers are all-or-nothing, not
independent: if the transfer of any single recipient with a positive
accumulated payout fails, the whole end-of-cycle transaction reverts —
no recipient keeps a payout, the prize pool is retained and the cycle
transition does not occur. -/
theorem c3_amended_distribution_reverts (tOk : Nat → Nat → Bool) (s : GameState) (now : Nat)
    (hend : shouldEndGame s now = true)
    (p : Nat × Nat)
    (hp : p ∈ accumPrizes s (s.prizeBankBalance * 1 / ownedCellCount s))
    (hpos : 0 < p.2) (hto : tOk p.1 p.2 = false) :
    checkAndEndGameTx tOk s now = (s, .error .transferFailed) := by
  have hfail : _distributePrizes tOk { s with gameActive := false }
      (_findWinners { s with gameActive := false }) = .error .transferFailed :=
    distributePrizes_error_of_failed_payout tOk { s with gameActive := false } p hp hpos hto
  unfold checkAndEndGameTx checkAndEndGame
  rw [hend, if_pos rfl, hfail]

/-- C3 amended witness: actor 100's accumulated 6-wei payout has a
failing transfer, which reverts the whole `checkAndEndGame`
transaction on the counterexample state. -/
theorem c3_amended_distribution_reverts_witness :
    checkAndEndGameTx tOkNot100 demoTwoOwners 10 = (demoTwoOwners, .error .transferFailed) :=
  c3_amended_distribution_reverts tOkNot100 demoTwoOwners 10 rfl (100, 6)
    (by decide) (by decide) rfl

/-- Inversion of a successful purchase: every validation passed (in
source order) and the result state is the `applyPurchase` mutation with
the prize bank returned by `_distributePayment`. -/
theorem purchase_ok_shape (tOk : Nat → Nat → Bool) (s : GameState) (sender msgValue x y : Nat)
    (color : String) (now : Nat) (s1 : GameState)
    (h : purchasePixel tOk s sender msgValue x y color now = .ok s1) :
    s.gameActive = true ∧ x < CANVAS_WIDTH ∧ y < CANVAS_HEIGHT ∧
    color.length ≠ 0 ∧
    (lazyResolve s x y).price ≤ msgValue ∧
    (lazyResolve s x y).owner ≠ sender ∧
    ((lazyResolve s x y).owner ≠ 0 → s.pixelCounts (lazyResolve s x y).owner ≠ 0) ∧
    ∃ npb, _distributePayment tOk s.developerWallet s.prizeBankBalance
        (lazyResolve s x y).owner msgValue = .ok npb ∧
      s1 = applyPurchase s sender x y color now npb := by
  unfold purchasePixel at h
  split at h
  · exact Except.noConfusion h
  next hActive =>
  split at h
  · exact Except.noConfusion h
  next hX =>
  split at h
  · exact Except.noConfusion h
  next hY =>
  split at h
  · exact Except.noConfusion h
  next hColor =>
  split at h
  · exact Except.noConfusion h
  next hPay =>
  split at h
  · exact Except.noConfusion h
  next hOwn =>
  split at h
  · exact Except.noConfusion h
  next hCnt =>
  split at h
  · exact Except.noConfusion h
  next npb hnpb =>
  injection h with h
  refine ⟨?_, ?_, ?_, hColor, ?_, hOwn, ?_, npb, hnpb, h.symm⟩
  · exact Bool.not_eq_false _ |>.mp hActive
  · exact Nat.not_le.mp hX
  · exact Nat.not_le.mp hY
  · exact Nat.not_lt.mp hPay
  · intro ho hc
    exact hCnt ⟨ho, hc⟩

/-- C4: if any payment transfer of a purchase fails (previous owner or
developer), the purchase transaction returns the transfer-failure error
and the post-transaction state is exactly the pre-state: grid, counters,
prize pool and activity clock are all unchanged. -/
theorem c4_purchase_transfer_atomic (tOk : Nat → Nat → Bool) (s : GameState)
    (sender msgValue x y : Nat) (color : String) (now : Nat) (err : PurchaseError)
    (hact : s.gameActive = true) (hx : x < CANVAS_WIDTH) (hy : y < CANVAS_HEIGHT)
    (hcol : color.length ≠ 0)
    (hpay : (lazyResolve s x y).price ≤ msgValue)
    (hown : (lazyResolve s x y).owner ≠ sender)
    (hcnt : ¬ ((lazyResolve s x y).owner ≠ 0 ∧ s.pixelCounts (lazyResolve s x y).owner = 0))
    (hfail : _distributePayment tOk s.developerWallet s.prizeBankBalance
        (lazyResolve s x y).owner msgValue = .error err) :
    purchaseTx tOk s sender msgValue x y color now = (s, .error .transferFailed) := by
  have herr : err = .transferFailed := by
    unfold _distributePayment at hfail
    dsimp only at hfail
    split at hfail
    · injection hfail with hfail
      exact hfail.symm
    · split at hfail
      · injection hfail with hfail
        exact hfail.symm
      · exact Except.noConfusion hfail
  subst herr
  unfold purchaseTx purchasePixel
  rw [if_neg (by simp [hact]), if_neg (Nat.not_le.mpr hx), if_neg (Nat.not_le.mpr hy),
      if_neg hcol, if_neg (Nat.not_lt.mpr hpay), if_neg hown, if_neg hcnt, hfail]

/-- C4 witness: actor 200 buys the cell owned by actor 100 in `traceS2`
under the all-transfers-fail oracle; the transaction reports the
transfer failure and returns the untouched pre-state. -/
theorem c4_purchase_transfer_atomic_witness :
    purchaseTx tOkNone traceS2 200 110000000000000 0 0 "#0000FF" 30 =
      (traceS2, .error .transferFailed) :=
  c4_purchase_transfer_atomic tOkNone traceS2 200 110000000000000 0 0 "#0000FF" 30
    .transferFailed (by decide) (by decide) (by decide) (by decide) (by decide)
    (by decide) (by decide) rfl

/-- C8 counterexample: in `traceS2` actor 100 owns cell (0,0) (also after
lazy resolution), yet a repurchase attempt tendering 0 wei fails with
`insufficientPayment`, not `alreadyOwner` — the claim's "regardless of
the amount tendered" is refuted because the payment check precedes the
ownership check. -/
theorem c8_counterexample_insufficient_first :
    (lazyResolve traceS2 0 0).owner = 100 ∧
    traceS2.gameActive = true ∧
    purchasePixel tOkAll traceS2 100 0 0 0 "#ABCDEF" 30 = .error .insufficientPayment ∧
    PurchaseError.insufficientPayment ≠ PurchaseError.alreadyOwner :=
  ⟨by decide, by decide, rfl, by decide⟩

/-- C8 amended: a purchase of a cell the caller already owns (after lazy
resolution) always fails, but the error depends on the amount tendered:
`alreadyOwner` when the tendered amount covers the cell's current price,
`insufficientPayment` (checked first, line 109) when it does not. -/
theorem c8_amended_self_repurchase (tOk : Nat → Nat → Bool) (s : GameState)
    (sender msgValue x y : Nat) (color : String) (now : Nat)
    (hact : s.gameActive = true) (hx : x < CANVAS_WIDTH) (hy : y < CANVAS_HEIGHT)
    (hcol : color.length ≠ 0)
    (hown : (lazyResolve s x y).owner = sender) :
    ((lazyResolve s x y).price ≤ msgValue →
      purchasePixel tOk s sender msgValue x y color now = .error .alreadyOwner) ∧
    (msgValue < (lazyResolve s x y).price →
      purchasePixel tOk s sender msgValue x y color now = .error .insufficientPayment) := by
  constructor
  · intro hpay
    unfold purchasePixel
    rw [if_neg (by simp [hact]), if_neg (Nat.not_le.mpr hx), if_neg (Nat.not_le.mpr hy),
        if_neg hcol, if_neg (Nat.not_lt.mpr hpay), if_pos hown]
  · intro hpay
    unfold purchasePixel
    rw [if_neg (by simp [hact]), if_neg (Nat.not_le.mpr hx), if_neg (Nat.not_le.mpr hy),
        if_neg hcol, if_pos hpay]

/-- C8 amended witness: the owner of cell (0,0) in `traceS2` tendering
the full current price is rejected with `alreadyOwner`. -/
theorem c8_amended_self_repurchase_witness :
    purchasePixel tOkAll traceS2 100 110000000000000 0 0 "#ABCDEF" 30 =
      .error .alreadyOwner :=
  (c8_amended_self_repurchase tOkAll traceS2 100 110000000000000 0 0 "#ABCDEF" 30
    (by decide) (by decide) (by decide) (by decide) (by decide)).1 (by decide)

/-- Membership in the grid traversal: exactly the in-bounds coordinates. -/
theorem mem_cellList (x y : Nat) :
    (x, y) ∈ cellList ↔ x < CANVAS_WIDTH ∧ y < CANVAS_HEIGHT := by
  unfold cellList CANVAS_WIDTH CANVAS_HEIGHT
  simp only [List.mem_map, List.mem_range, Prod.mk.injEq]
  constructor
  · rintro ⟨i, hi, hx, hy⟩
    omega
  · rintro ⟨hx, hy⟩
    exact ⟨32 * x + y, by omega, by omega, by omega⟩

/-- The grid traversal visits every cell exactly once. -/
theorem cellList_nodup : cellList.Nodup := by
  unfold cellList
  refine List.Nodup.map ?_ (List.nodup_range _)
  intro i j hij
  simp only [Prod.mk.injEq, CANVAS_HEIGHT] at hij
  omega

/-- Under the price invariant, the lazily-resolved price of an in-bounds
cell is at least `INITIAL_PRICE`. -/
theorem priceInv_resolve (s : GameState) (x y : Nat) (hinv : priceInvB s = true)
    (hx : x < CANVAS_WIDTH) (hy : y < CANVAS_HEIGHT) :
    INITIAL_PRICE ≤ (lazyResolve s x y).price := by
  unfold priceInvB at hinv
  rw [List.all_eq_true] at hinv
  have hm := hinv (x, y) ((mem_cellList x y).mpr ⟨hx, hy⟩)
  rw [Bool.or_eq_true, decide_eq_true_eq, decide_eq_true_eq] at hm
  unfold lazyResolve
  dsimp only
  split
  · exact Nat.le_refl _
  next hlt =>
    rcases hm with hm | hm
    · exact absurd hm hlt
    · exact hm

/-- One price escalation step strictly increases any price that is at
least `INITIAL_PRICE` (floor of a 10% increase grows once the price is
at least 10 wei). -/
theorem next_price_gt (p : Nat) (hp : INITIAL_PRICE ≤ p) :
    p < p * PRICE_INCREASE_FACTOR / PRICE_INCREASE_DIVISOR := by
  unfold INITIAL_PRICE at hp
  unfold PRICE_INCREASE_FACTOR PRICE_INCREASE_DIVISOR
  omega

/-- The purchased cell after `applyPurchase`. -/
theorem applyPurchase_pixels_self (s : GameState) (sender x y : Nat) (color : String)
    (now npb : Nat) :
    (applyPurchase s sender x y color now npb).pixels x y =
      { owner := sender,
        price := (lazyResolve s x y).price * PRICE_INCREASE_FACTOR / PRICE_INCREASE_DIVISOR,
        color := color, lastUpdateTime := now } := by
  simp [applyPurchase]

/-- All other cells are untouched by `applyPurchase`. -/
theorem applyPurchase_pixels_other (s : GameState) (sender x y : Nat) (color : String)
    (now npb a b : Nat) (hne : ¬ (a = x ∧ b = y)) :
    (applyPurchase s sender x y color now npb).pixels a b = s.pixels a b := by
  dsimp only [applyPurchase]
  rw [if_neg hne]

/-- C6: under the per-cycle price invariant, a successful purchase sets
the cell's new price to `floor(resolved_price * 110 / 100)`, which is a
strict increase over the (lazily-resolved) price paid for; resolved
prices never drop below `INITIAL_PRICE`, and the invariant is preserved,
so prices are monotone within a cycle. -/
theorem c6_price_escalation (tOk : Nat → Nat → Bool) (s : GameState)
    (sender msgValue x y : Nat) (color : String) (now : Nat) (s1 : GameState)
    (hinv : priceInvB s = true)
    (hok : purchasePixel tOk s sender msgValue x y color now = .ok s1) :
    (s1.pixels x y).price =
      (lazyResolve s x y).price * PRICE_INCREASE_FACTOR / PRICE_INCREASE_DIVISOR ∧
    (lazyResolve s x y).price < (s1.pixels x y).price ∧
    INITIAL_PRICE ≤ (lazyResolve s x y).price ∧
    INITIAL_PRICE ≤ (s1.pixels x y).price ∧
    priceInvB s1 = true := by
  obtain ⟨hact, hx, hy, hcol, hpay, hown, hcnt, npb, hnpb, hs1⟩ :=
    purchase_ok_shape tOk s sender msgValue x y color now s1 hok
  subst hs1
  have hres : INITIAL_PRICE ≤ (lazyResolve s x y).price := priceInv_resolve s x y hinv hx hy
  have hself := applyPurchase_pixels_self s sender x y color now npb
  have hstep := next_price_gt (lazyResolve s x y).price hres
  refine ⟨by rw [hself], by rw [hself]; exact hstep, hres, ?_, ?_⟩
  · rw [hself]
    exact Nat.le_trans hres (Nat.le_of_lt hstep)
  · unfold priceInvB
    rw [List.all_eq_true]
    intro xy hxy
    rw [Bool.or_eq_true, decide_eq_true_eq, decide_eq_true_eq]
    by_cases he : xy = (x, y)
    · subst he
      right
      dsimp only
      rw [hself]
      exact Nat.le_trans hres (Nat.le_of_lt hstep)
    · unfold priceInvB at hinv
      rw [List.all_eq_true] at hinv
      have hm := hinv xy hxy
      rw [Bool.or_eq_true, decide_eq_true_eq, decide_eq_true_eq] at hm
      have hpix : (applyPurchase s sender x y color now npb).pixels xy.1 xy.2 =
          s.pixels xy.1 xy.2 := by
        refine applyPurchase_pixels_other s sender x y color now npb xy.1 xy.2 ?_
        intro hc
        apply he
        obtain ⟨a, b⟩ := xy
        simp only at hc
        rw [hc.1, hc.2]
      rw [hpix]
      exact hm

/-- C6 witness: the first purchase of the trace escalates cell (0,0)
from `INITIAL_PRICE` to `floor(INITIAL_PRICE * 110 / 100)` and keeps the
invariant. -/
theorem c6_price_escalation_witness :
    (traceS2.pixels 0 0).price =
      (lazyResolve traceS1 0 0).price * PRICE_INCREASE_FACTOR / PRICE_INCREASE_DIVISOR ∧
    (lazyResolve traceS1 0 0).price < (traceS2.pixels 0 0).price ∧
    INITIAL_PRICE ≤ (lazyResolve traceS1 0 0).price ∧
    INITIAL_PRICE ≤ (traceS2.pixels 0 0).price ∧
    priceInvB traceS2 = true :=
  c6_price_escalation tOkAll traceS1 100 INITIAL_PRICE 0 0 "#FF0000" 20 traceS2
    (by decide) rfl

/-- A key absent from the accumulation array has amount 0. -/
theorem getAmt_eq_zero_of_no_key (acc : List (Nat × Nat)) (o : Nat)
    (h : hasKey acc o = false) : getAmt acc o = 0 := by
  induction acc with
  | nil => rfl
  | cons p rest ih =>
    by_cases hp : p.1 = o
    · simp [hasKey, hp] at h
    · simp only [hasKey, if_neg hp] at h
      simp only [getAmt, if_neg hp]
      exact ih h

/-- Crediting an existing key adds exactly `ps` to its amount. -/
theorem getAmt_updAmt_self (ps : Nat) (acc : List (Nat × Nat)) (o : Nat)
    (h : hasKey acc o = true) :
    getAmt (updAmt ps acc o) o = getAmt acc o + ps := by
  induction acc with
  | nil => exact Bool.noConfusion h
  | cons p rest ih =>
    by_cases hp : p.1 = o
    · simp [updAmt, getAmt, hp]
    · simp only [hasKey, if_neg hp] at h
      simp only [updAmt, if_neg hp, getAmt]
      exact ih h

/-- Crediting one key leaves every other key's amount unchanged. -/
theorem getAmt_updAmt_other (ps : Nat) (acc : List (Nat × Nat)) (o o2 : Nat)
    (hne : o2 ≠ o) :
    getAmt (updAmt ps acc o) o2 = getAmt acc o2 := by
  induction acc with
  | nil => rfl
  | cons p rest ih =>
    by_cases hp : p.1 = o
    · by_cases hp2 : p.1 = o2
      · exact absurd (hp2.symm.trans hp) hne
      · simp only [updAmt, if_pos hp, getAmt, if_neg hp2]
    · by_cases hp2 : p.1 = o2
      · simp only [updAmt, if_neg hp, getAmt, if_pos hp2]
      · simp only [updAmt, if_neg hp, getAmt, if_neg hp2]
        exact ih

/-- Amount lookup after appending a fresh entry. -/
theorem getAmt_append (acc : List (Nat × Nat)) (w amt o : Nat) :
    getAmt (acc ++ [(w, amt)]) o =
      if hasKey acc o = true then getAmt acc o else (if w = o then amt else 0) := by
  induction acc with
  | nil => simp [getAmt, hasKey]
  | cons p rest ih =>
    by_cases hp : p.1 = o
    · simp [getAmt, hasKey, hp]
    · simp only [List.cons_append, getAmt, if_neg hp, hasKey]
      exact ih

/-- The accumulated amount of owner `o` after folding an owner scan:
each occurrence of `o` contributes exactly `ps`. -/
theorem getAmt_foldl_accum (ps o : Nat) (ho : o ≠ 0) (hps : 0 < ps) :
    ∀ (l : List Nat) (acc : List (Nat × Nat)),
      getAmt (l.foldl (accumStep ps) acc) o =
        getAmt acc o + l.countP (fun w => w == o) * ps := by
  intro l
  induction l with
  | nil =>
    intro acc
    simp
  | cons w l ih =>
    intro acc
    rw [List.foldl_cons, List.countP_cons, ih]
    by_cases hw : w = o
    · subst hw
      have hstep : getAmt (accumStep ps acc w) w = getAmt acc w + ps := by
        unfold accumStep
        rw [if_pos ⟨ho, hps⟩]
        by_cases hk : hasKey acc w = true
        · rw [if_pos hk]
          exact getAmt_updAmt_self ps acc w hk
        · have hk2 : hasKey acc w = false := by simpa using hk
          rw [if_neg hk, getAmt_append, if_neg hk, if_pos rfl,
              getAmt_eq_zero_of_no_key acc w hk2]
          omega
      rw [hstep]
      simp only [beq_self_eq_true, if_true]
      ring
    · have hstep : getAmt (accumStep ps acc w) o = getAmt acc o := by
        unfold accumStep
        by_cases hg : w ≠ 0 ∧ 0 < ps
        · rw [if_pos hg]
          by_cases hk : hasKey acc w = true
          · rw [if_pos hk]
            exact getAmt_updAmt_other ps acc w o (fun e => hw e.symm)
          · rw [if_neg hk, getAmt_append]
            by_cases hko : hasKey acc o = true
            · rw [if_pos hko]
            · rw [if_neg hko, if_neg hw,
                  getAmt_eq_zero_of_no_key acc o (by simpa using hko)]
        · rw [if_neg hg]
      rw [hstep]
      have hbeq : (w == o) = false := by simp [hw]
      rw [hbeq]
      simp

/-- Crediting preserves positivity of all amounts. -/
theorem updAmt_pos (ps : Nat) (acc : List (Nat × Nat)) (o : Nat)
    (h : ∀ p ∈ acc, 0 < p.2) : ∀ p ∈ updAmt ps acc o, 0 < p.2 := by
  induction acc with
  | nil =>
    intro p hp
    cases hp
  | cons q rest ih =>
    intro p hp
    by_cases hq : q.1 = o
    · simp only [updAmt, if_pos hq] at hp
      rcases List.mem_cons.mp hp with h1 | h1
      · have := h q (List.mem_cons_self q rest)
        subst h1
        simp only
        omega
      · exact h p (List.mem_cons_of_mem _ h1)
    · simp only [updAmt, if_neg hq] at hp
      rcases List.mem_cons.mp hp with h1 | h1
      · subst h1
        exact h p (List.mem_cons_self p rest)
      · exact ih (fun r hr => h r (List.mem_cons_of_mem _ hr)) p h1

/-- Every amount in the prize accumulation array is positive. -/
theorem accum_all_pos (ps : Nat) :
    ∀ (l : List Nat) (acc : List (Nat × Nat)), (∀ p ∈ acc, 0 < p.2) →
      ∀ p ∈ l.foldl (accumStep ps) acc, 0 < p.2 := by
  intro l
  induction l with
  | nil =>
    intro acc h
    exact h
  | cons w l ih =>
    intro acc h
    rw [List.foldl_cons]
    refine ih _ ?_
    unfold accumStep
    split
    next hg =>
      split
      · exact updAmt_pos ps acc w h
      · intro p hp
        rcases List.mem_append.mp hp with h1 | h1
        · exact h p h1
        · have : p = (w, ps) := List.mem_singleton.mp h1
          subst this
          exact hg.2
    · exact h

/-- Filtering the positive amounts of an all-positive list is the
identity. -/
theorem filter_pos_eq_self (l : List (Nat × Nat)) (h : ∀ p ∈ l, 0 < p.2) :
    l.filter (fun p => 0 < p.2) = l := by
  induction l with
  | nil => rfl
  | cons q rest ih =>
    rw [List.filter_cons, if_pos (by simpa using h q (List.mem_cons_self q rest)),
        ih (fun r hr => h r (List.mem_cons_of_mem _ hr))]

/-- C2 counterexample: in `demoTwoOwners` (prize pool 10, actor 100 owns
3 of the 4 owned cells) the code pays actor 100 exactly
3 * floor(10/4) = 6, while the claim's formula floor(10*3/4) demands 7. -/
theorem c2_counterexample_floor_product :
    (okOr (demoTwoOwners, []) (_distributePrizes tOkAll demoTwoOwners
        (_findWinners demoTwoOwners))).2 = [(100, 6), (200, 2)] ∧
    countOwned demoTwoOwners 100 = 3 ∧
    ownedCellCount demoTwoOwners = 4 ∧
    demoTwoOwners.prizeBankBalance = 10 ∧
    demoTwoOwners.prizeBankBalance * countOwned demoTwoOwners 100 /
        ownedCellCount demoTwoOwners = 7 :=
  ⟨by decide, by decide, by decide, rfl, by decide⟩

/-- A zero per-cell share accumulates nothing. -/
theorem accumStep_zero (acc : List (Nat × Nat)) (o : Nat) : accumStep 0 acc o = acc := by
  unfold accumStep
  rw [if_neg]
  intro h
  exact absurd h.2 (Nat.lt_irrefl 0)

/-- Folding a zero per-cell share leaves the accumulator unchanged. -/
theorem foldl_accumStep_zero : ∀ (l : List Nat) (acc : List (Nat × Nat)),
    l.foldl (accumStep 0) acc = acc := by
  intro l
  induction l with
  | nil =>
    intro acc
    rfl
  | cons w l ih =>
    intro acc
    rw [List.foldl_cons, accumStep_zero]
    exact ih acc

/-- With a zero per-cell share the prize accumulation array is empty. -/
theorem accumPrizes_zero (s : GameState) : accumPrizes s 0 = [] :=
  foldl_accumStep_zero (ownerScan s) []

/-- C2 amended: a successful distribution pays each actor owning cells
`count * floor(prize_pool / total_owned)` — the per-cell share
`floor(prize_pool / total_owned)` accumulated once per owned cell — not
`floor(prize_pool * count / total_owned)`; when the per-cell share
truncates to 0, the payout list is empty and nobody is paid. -/
theorem c2_amended_per_cell_share (tOk : Nat → Nat → Bool) (s : GameState)
    (winners : List Nat) (s2 : GameState) (evs : List (Nat × Nat)) (o : Nat)
    (ho : o ≠ 0)
    (hw : winners.length ≠ 0)
    (hok : _distributePrizes tOk s winners = .ok (s2, evs)) :
    getAmt evs o = countOwned s o * (s.prizeBankBalance * 1 / ownedCellCount s) ∧
    (s.prizeBankBalance * 1 / ownedCellCount s = 0 → evs = []) := by
  by_cases hps : 0 < s.prizeBankBalance * 1 / ownedCellCount s
  · refine ⟨?_, fun h0 => absurd h0 (Nat.pos_iff_ne_zero.mp hps)⟩
    unfold _distributePrizes at hok
    rw [if_neg ?g1] at hok
    case g1 =>
      rintro (h | h)
      · exact hw h
      · rw [h] at hps
        simp at hps
    dsimp only at hok
    rw [if_neg ?g2] at hok
    case g2 =>
      intro h
      rw [h] at hps
      simp at hps
    split at hok
    next hall =>
      injection hok with hok
      have hevs : evs = (accumPrizes s (s.prizeBankBalance * 1 / ownedCellCount s)).filter
          (fun p => 0 < p.2) := by
        have := congrArg (fun q => q.2) hok
        exact this.symm
      have hpos : ∀ p ∈ accumPrizes s (s.prizeBankBalance * 1 / ownedCellCount s), 0 < p.2 :=
        accum_all_pos _ (ownerScan s) [] (fun p hp => absurd hp (List.not_mem_nil p))
      rw [hevs, filter_pos_eq_self _ hpos]
      have hmain := getAmt_foldl_accum (s.prizeBankBalance * 1 / ownedCellCount s) o ho hps
        (ownerScan s) []
      unfold accumPrizes countOwned
      rw [hmain]
      simp [getAmt]
    next =>
      exact Except.noConfusion hok
  · have hps0 : s.prizeBankBalance * 1 / ownedCellCount s = 0 :=
      Nat.eq_zero_of_not_pos hps
    have hevs : evs = [] := by
      unfold _distributePrizes at hok
      split at hok
      · injection hok with hok
        injection hok with h1 h2
        exact h2.symm
      · dsimp only at hok
        split at hok
        · injection hok with hok
          injection hok with h1 h2
          exact h2.symm
        · rw [hps0, accumPrizes_zero] at hok
          simp only [List.all_nil] at hok
          rw [if_true] at hok
          injection hok with hok
          injection hok with h1 h2
          rw [← h2]
          rfl
    refine ⟨?_, fun _ => hevs⟩
    rw [hevs, hps0, Nat.mul_zero]
    rfl

/-- C2 amended witness: actor 100 receives 3 * floor(10/4) = 6 in the
concrete distribution, and with a 1-wei pool over 4 owned cells the
per-cell share truncates to 0 and the payout list is empty. -/
theorem c2_amended_per_cell_share_witness :
    (getAmt (okOr (demoTwoOwners, []) (_distributePrizes tOkAll demoTwoOwners
        (_findWinners demoTwoOwners))).2 100 =
      countOwned demoTwoOwners 100 *
        (demoTwoOwners.prizeBankBalance * 1 / ownedCellCount demoTwoOwners)) ∧
    (okOr (demoZeroShare, []) (_distributePrizes tOkAll demoZeroShare
        (_findWinners demoZeroShare))).2 = [] :=
  ⟨(c2_amended_per_cell_share tOkAll demoTwoOwners (_findWinners demoTwoOwners)
      (okOr (demoTwoOwners, []) (_distributePrizes tOkAll demoTwoOwners
        (_findWinners demoTwoOwners))).1
      (okOr (demoTwoOwners, []) (_distributePrizes tOkAll demoTwoOwners
        (_findWinners demoTwoOwners))).2
      100 (by decide) (by decide) rfl).1,
   (c2_amended_per_cell_share tOkAll demoZeroShare (_findWinners demoZeroShare)
      (okOr (demoZeroShare, []) (_distributePrizes tOkAll demoZeroShare
        (_findWinners demoZeroShare))).1
      (okOr (demoZeroShare, []) (_distributePrizes tOkAll demoZeroShare
        (_findWinners demoZeroShare))).2
      100 (by decide) (by decide) rfl).2 (by decide)⟩

/-- Updating one actor's counter changes the actor-list sum by exactly
the difference at that entry. -/
theorem sum_map_update (actors : List Nat) (f : Nat → Nat) (i b : Nat)
    (hnd : actors.Nodup) (hi : i ∈ actors) :
    (actors.map (Function.update f i b)).sum + f i = (actors.map f).sum + b := by
  induction actors with
  | nil => cases hi
  | cons a rest ih =>
    rcases List.nodup_cons.mp hnd with ⟨ha, hrest⟩
    rcases List.mem_cons.mp hi with h | h
    · subst h
      have hmap : rest.map (Function.update f i b) = rest.map f := by
        refine List.map_congr_left (fun u hu => ?_)
        refine Function.update_noteq (fun e => ha ?_) b f
        rw [← e]
        exact hu
      simp only [List.map_cons, List.sum_cons, hmap, Function.update_same]
      omega
    · have hai : a ≠ i := fun e => ha (e ▸ h)
      simp only [List.map_cons, List.sum_cons]
      rw [Function.update_noteq hai b f]
      have := ih hrest h
      omega

/-- Changing the scanned owner at exactly one grid position shifts a
predicate count by swapping that position's contribution. -/
theorem countP_map_change (p : Nat → Bool) (f g : Nat × Nat → Nat) (z : Nat × Nat) :
    ∀ (l : List (Nat × Nat)), l.Nodup → z ∈ l → (∀ w ∈ l, w ≠ z → f w = g w) →
      (l.map f).countP p + (if p (g z) then 1 else 0) =
        (l.map g).countP p + (if p (f z) then 1 else 0) := by
  intro l
  induction l with
  | nil =>
    intro _ hz
    cases hz
  | cons w rest ih =>
    intro hnd hz hfg
    rcases List.nodup_cons.mp hnd with ⟨hw, hrest⟩
    simp only [List.map_cons, List.countP_cons]
    rcases List.mem_cons.mp hz with h | h
    · subst h
      have hmap : rest.map f = rest.map g :=
        List.map_congr_left
          (fun u hu => hfg u (List.mem_cons_of_mem _ hu) (fun e => hw (e ▸ hu)))
      rw [hmap, add_right_comm]
    · have hwz : w ≠ z := fun e => hw (e ▸ h)
      rw [hfg w (List.mem_cons_self w rest) hwz]
      have hrec := ih hrest h (fun u hu hu2 => hfg u (List.mem_cons_of_mem _ hu) hu2)
      rw [add_right_comm, hrec, add_right_comm]

/-- The post-purchase counter map, written out. -/
theorem applyPurchase_pixelCounts (s : GameState) (sender x y : Nat) (color : String)
    (now npb : Nat) :
    (applyPurchase s sender x y color now npb).pixelCounts =
      Function.update
        (if (lazyResolve s x y).owner ≠ 0 then
          Function.update s.pixelCounts (lazyResolve s x y).owner
            (s.pixelCounts (lazyResolve s x y).owner - 1)
        else s.pixelCounts)
        sender
        ((if (lazyResolve s x y).owner ≠ 0 then
          Function.update s.pixelCounts (lazyResolve s x y).owner
            (s.pixelCounts (lazyResolve s x y).owner - 1)
        else s.pixelCounts) sender + 1) := rfl

/-- C1 amended: the ledger-conservation invariant
`sum(pixelCounts) = number of owned cells` is preserved by a successful
purchase provided the purchased cell is not a stale-owned cell (a cell
last written in an earlier cycle with a nonzero owner) — in particular it
holds after every purchase of the first cycle.  The sum ranges over any
duplicate-free actor list without the zero address containing the buyer
and the previous owner; all other actors' counters are untouched. -/
theorem c1_amended_ledger_sum (tOk : Nat → Nat → Bool) (s : GameState)
    (sender msgValue x y : Nat) (color : String) (now : Nat) (s1 : GameState)
    (actors : List Nat)
    (hnd : actors.Nodup)
    (hsender0 : sender ≠ 0) (hsender : sender ∈ actors)
    (hprev : (lazyResolve s x y).owner ≠ 0 → (lazyResolve s x y).owner ∈ actors)
    (hstale : ¬ ((s.pixels x y).lastUpdateTime < s.gameStartTime ∧
      (s.pixels x y).owner ≠ 0))
    (hinv : sumCounts s actors = ownedCellCount s)
    (hok : purchasePixel tOk s sender msgValue x y color now = .ok s1) :
    sumCounts s1 actors = ownedCellCount s1 := by
  obtain ⟨hact, hx, hy, hcol, hpay, hown, hcnt, npb, hnpb, hs1⟩ :=
    purchase_ok_shape tOk s sender msgValue x y color now s1 hok
  subst hs1
  -- under the no-stale-owner hypothesis, the resolved owner is the stored owner
  have hpo : (lazyResolve s x y).owner = (s.pixels x y).owner := by
    unfold lazyResolve
    dsimp only
    split
    next hlt =>
      have hz : ¬ (s.pixels x y).owner ≠ 0 := fun hne => hstale ⟨hlt, hne⟩
      exact (not_not.mp hz).symm
    · rfl
  -- the owner written at (x, y)
  have hself_owner :
      ((applyPurchase s sender x y color now npb).pixels x y).owner = sender := by
    rw [applyPurchase_pixels_self]
  -- owned-cell count relation between the two states
  have hcell : (x, y) ∈ cellList := (mem_cellList x y).mpr ⟨hx, hy⟩
  have hcount := countP_map_change (fun o => o != 0)
      (fun xy => ((applyPurchase s sender x y color now npb).pixels xy.1 xy.2).owner)
      (fun xy => (s.pixels xy.1 xy.2).owner) (x, y) cellList cellList_nodup hcell ?hfg
  case hfg =>
    intro w hw hwz
    dsimp only
    rw [applyPurchase_pixels_other s sender x y color now npb w.1 w.2 ?_]
    intro hc
    apply hwz
    obtain ⟨a, b⟩ := w
    simp only at hc
    rw [hc.1, hc.2]
  dsimp only at hcount
  rw [hself_owner] at hcount
  have h1 : (if (sender != 0) = true then 1 else 0) = 1 := by
    simp [hsender0]
  rw [h1] at hcount
  have howned : ownedCellCount (applyPurchase s sender x y color now npb) +
      (if ((s.pixels x y).owner != 0) = true then 1 else 0) =
      ownedCellCount s + 1 := hcount
  unfold sumCounts at hinv ⊢
  rw [applyPurchase_pixelCounts]
  by_cases hz : (lazyResolve s x y).owner = 0
  · -- no previous owner: only the buyer's counter is incremented
    rw [if_neg (not_not_intro hz)]
    have hb : ((s.pixels x y).owner != 0) = false := by
      simp [← hpo, hz]
    rw [hb] at howned
    simp only [Bool.false_eq_true, if_false] at howned
    have hsum := sum_map_update actors s.pixelCounts sender
      (s.pixelCounts sender + 1) hnd hsender
    omega
  · -- a previous owner loses one cell, the buyer gains one
    rw [if_pos hz]
    have hb : ((s.pixels x y).owner != 0) = true := by
      rw [← hpo]
      simpa using hz
    rw [hb] at howned
    simp only [if_true] at howned
    have hprev_mem := hprev hz
    have hprev_cnt := hcnt hz
    have hsum1 := sum_map_update actors s.pixelCounts (lazyResolve s x y).owner
      (s.pixelCounts (lazyResolve s x y).owner - 1) hnd hprev_mem
    have hsum2 := sum_map_update actors
      (Function.update s.pixelCounts (lazyResolve s x y).owner
        (s.pixelCounts (lazyResolve s x y).owner - 1))
      sender
      ((Function.update s.pixelCounts (lazyResolve s x y).owner
        (s.pixelCounts (lazyResolve s x y).owner - 1)) sender + 1) hnd hsender
    omega

/-- C1 counterexample: a reachable two-cycle trace.  Actor 100 buys cell
(0,0) in the first cycle; after the cycle transition actor 200 buys the
lazily-reset cell.  The lazy reset clears the cell's owner without
decrementing actor 100's stale counter, so the counters sum to 2 while
only one cell is owned — the invariant claimed for "every reachable
state including states reached after cycle transitions" fails. -/
theorem c1_counterexample_stale_count :
    isOkE (startGame traceS0 10) = true ∧
    isOkE (purchasePixel tOkAll traceS1 100 INITIAL_PRICE 0 0 "#FF0000" 20) = true ∧
    isOkE (endGame tOkAll traceS2 86420) = true ∧
    isOkE (purchasePixel tOkAll traceS3 200 INITIAL_PRICE 0 0 "#00FF00" 86500) = true ∧
    traceS4.pixelCounts 100 = 1 ∧
    traceS4.pixelCounts 200 = 1 ∧
    sumCounts traceS4 [100, 200] = 2 ∧
    ownedCellCount traceS4 = 1 :=
  ⟨rfl, rfl, rfl, rfl, by decide, by decide, by decide, by decide⟩

/-- C1 amended witness: the first purchase of the trace (no stale owner
involved) preserves the ledger-conservation invariant. -/
theorem c1_amended_ledger_sum_witness :
    sumCounts traceS2 [100] = ownedCellCount traceS2 :=
  c1_amended_ledger_sum tOkAll traceS1 100 INITIAL_PRICE 0 0 "#FF0000" 20 traceS2 [100]
    (by decide) (by decide) (by decide) (by decide) (by decide) (by decide) rfl

end PixelBattle
